import Mathlib

/-!
Verification of the arrow-udf binding generator and JS runtime.

This file gives a shallow embedding, in Lean 4, of the code in
`arrow-udf-macros/src/gen.rs` (the code generator: the semantics of the code
it emits) and `arrow-udf-js/src/lib.rs` (the embedded-scripting runtime),
and proves or refutes the frozen specification claims about them.
-/

namespace ArrowUdf

/-! ## Data model

`FunctionAttr` mirrors the descriptor struct consumed by
`arrow-udf-macros/src/gen.rs` (fields visible from their uses in `gen.rs`:
`name`, `args`, `ret`, `is_table_function`, `type_infer`, `batch_fn`,
`output`).  `CallMode` mirrors the enum in `arrow-udf-js/src/lib.rs`. -/

structure FunctionAttr where
  name : String
  args : List String
  ret : String
  is_table_function : Bool
  type_infer : Option String
  batch_fn : Option String
  output : Option String
deriving DecidableEq

inductive CallMode where
  | calledOnNullInput
  | returnNullOnNullInput
deriving DecidableEq

/-! ## DescriptorExpander (`FunctionAttr::expand`, gen.rs lines 25-45)

`expand` maps each argument type and the return type through
`types::expand_type_wildcard`, takes the cartesian product over argument
positions (patched with one empty combination when the argument list is
empty, because `multi_cartesian_product` of no iterators is empty), and
pairs every argument combination with every return candidate.

`types::expand_type_wildcard` lives in `types.rs`, which is not part of the
sources under verification; `expand` is therefore parametrized by the
candidate-expansion function `etw`.  The claims proved below hold for every
such function (with, for idempotence, the hypothesis that `etw` maps each of
the descriptor's types to the singleton of itself, which is the defining
property of a wildcard-free type). -/

/-- Cartesian product of a list of lists, first factor outermost;
the product of no factors is the single empty combination. -/
def listProd {α : Type} : List (List α) → List (List α)
  | [] => [[]]
  | l :: ls => l.flatMap fun x => (listProd ls).map fun xs => x :: xs

/-- `itertools::multi_cartesian_product`: like `listProd`, except that the
product of an empty collection of iterators is empty. -/
def multiCartesianProduct {α : Type} (ls : List (List α)) : List (List α) :=
  match ls with
  | [] => []
  | _ => listProd ls

/-- `FunctionAttr::expand` (gen.rs lines 25-45), parametrized by the
candidate-expansion function `etw` standing for
`types::expand_type_wildcard`. -/
def expand (etw : String → List String) (d : FunctionAttr) : List FunctionAttr :=
  let prod := multiCartesianProduct (d.args.map etw) ++
    (if d.args.isEmpty then [[]] else [])
  prod.flatMap fun args =>
    (etw d.ret).map fun r => { d with args := args, ret := r }

/-! ## TypeInferencer (`generate_type_infer_fn`, gen.rs lines 49-89)

The generated inference closure is represented by the first-order syntax
`InferFn`; `generateTypeInferFn` mirrors the branch structure of the Rust
function, and `applyInfer` gives the runtime semantics of each closure. -/

/-- Logical data types as far as inference observes them: a named scalar
type or a list type. -/
inductive DataTypeM where
  | named (s : String)
  | list (elem : DataTypeM)
deriving DecidableEq

/-- `DataType::as_list` as used by the generated inference closure.
Modelled from the spec: the element type of an `anyarray` argument
(`as_list` itself is defined outside the sources under verification). -/
def DataTypeM.asList : DataTypeM → DataTypeM
  | .list t => t
  | t => t

/-- Fuelled helper for `dataTypeOf`. -/
def dataTypeOfGo : Nat → String → DataTypeM
  | 0, t => .named t
  | n + 1, t =>
    if t.endsWith "[]" then .list (dataTypeOfGo n (t.dropRight 2)) else .named t

/-- `data_type` (gen.rs lines 502-513) restricted to the shape inference
observes: `T[]` maps to a list of `T`, anything else to a named type. -/
def dataTypeOf (t : String) : DataTypeM :=
  dataTypeOfGo t.length t

/-- The closures that `generate_type_infer_fn` can emit. -/
inductive InferFn where
  | panicFn
  | custom (src : String)
  | argType (i : Nat)
  | argElemType (i : Nat)
  | listOfArg (i : Nat)
  | constType (t : String)
deriving DecidableEq

/-- `generate_type_infer_fn` (gen.rs lines 49-89). -/
def generateTypeInferFn (d : FunctionAttr) : Except String InferFn :=
  match d.type_infer with
  | some f => if f = "panic" then .ok .panicFn else .ok (.custom f)
  | none =>
    if d.ret = "any" then
      match d.args.findIdx? (· == "any") with
      | some i => .ok (.argType i)
      | none =>
        match d.args.findIdx? (· == "anyarray") with
        | some i => .ok (.argElemType i)
        | none => .error "type inference function is required"
    else if d.ret = "anyarray" then
      match d.args.findIdx? (· == "anyarray") with
      | some i => .ok (.argType i)
      | none =>
        match d.args.findIdx? (· == "any") with
        | some i => .ok (.listOfArg i)
        | none => .error "type inference function is required"
    else if d.ret = "struct" then
      match d.args.findIdx? (· == "struct") with
      | some i => .ok (.argType i)
      | none => .error "type inference function is required"
    else .ok (.constType d.ret)

/-- Runtime semantics of a generated inference closure applied to the
caller-supplied argument types. -/
def applyInfer (f : InferFn) (args : List DataTypeM) : Except String DataTypeM :=
  match f with
  | .panicFn => .error "type inference function is not implemented"
  | .custom src => .error src
  | .argType i =>
    match args.get? i with
    | some t => .ok t
    | none => .error "argument index out of range"
  | .argElemType i =>
    match args.get? i with
    | some t => .ok t.asList
    | none => .error "argument index out of range"
  | .listOfArg i =>
    match args.get? i with
    | some t => .ok (.list t)
    | none => .error "argument index out of range"
  | .constType t => .ok (dataTypeOf t)

/-! ## Generated scalar evaluation, generic per-row path
(gen.rs lines 150-434)

A row of the input batch is a list of per-argument cells (`Option α`; `none`
is an absent/null cell).  `gatePasses` is the tuple-pattern match generated
at gen.rs lines 244-259: an argument whose reflected signature entry is
non-`Option` (`args_option[i] = false`) is matched against `Some(_)`, so the
pattern fails exactly when some such argument is null.

The user function's result, for each of the four reflected return shapes
(`ReturnTypeKind`), is a `UserOutput`.  `applyOutput` is the error-handling
wrapper generated at gen.rs lines 224-241 for scalar functions: it appends
to the error column builder and produces the `Option` value handed to
`gen_append`.  `processScalarRow` is one iteration of the generated row
loop (gen.rs lines 398-404). -/

/-- One cell per argument; `none` is a null cell. -/
abbrev Row (α : Type) := List (Option α)

/-- The generated argument-unwrapping pattern match (gen.rs lines 244-259):
succeeds iff every argument that does not accept null directly
(`args_option` entry `false`) is non-null. -/
def gatePasses (argsOpt : List Bool) (row : Row α) : Bool :=
  (argsOpt.zip row).all fun p => p.1 || p.2.isSome

/-- Result of one user-function call, per reflected `ReturnTypeKind`. -/
inductive UserOutput (β : Type) where
  | plain (v : β)
  | opt (v : Option β)
  | fallible (v : Except String β)
  | fallibleOpt (v : Except String (Option β))

/-- Builders accumulated by the generic scalar path: the value column
builder and the error column builder. -/
structure ScalarState (β : Type) where
  builder : List (Option β)
  errBuilder : List (Option String)
deriving DecidableEq

/-- Error handling generated for scalar functions (gen.rs lines 224-241):
for the fallible shapes a success appends a null error cell and yields the
value, a failure appends the failure's display string and yields `none`. -/
def applyOutput (st : ScalarState β) (o : UserOutput β) : ScalarState β × Option β :=
  match o with
  | .plain v => (st, some v)
  | .opt v => (st, v)
  | .fallible (.ok x) => ({ st with errBuilder := st.errBuilder ++ [none] }, some x)
  | .fallible (.error e) => ({ st with errBuilder := st.errBuilder ++ [some e] }, none)
  | .fallibleOpt (.ok x) => ({ st with errBuilder := st.errBuilder ++ [none] }, x)
  | .fallibleOpt (.error e) => ({ st with errBuilder := st.errBuilder ++ [some e] }, none)

/-- One iteration of the generated generic per-row scalar loop
(gen.rs lines 398-404): run the argument gate; on success call the user
function `f` and append its projected value, on failure append a null value
(note: the error column builder is not touched on gate failure). -/
def processScalarRow (argsOpt : List Bool) (f : Row α → UserOutput β)
    (st : ScalarState β) (row : Row α) : ScalarState β :=
  if gatePasses argsOpt row then
    let p := applyOutput st (f row)
    { p.1 with builder := p.1.builder ++ [p.2] }
  else
    { st with builder := st.builder ++ [none] }

/-- The generated generic per-row scalar loop over all rows. -/
def scalarEvalGeneric (argsOpt : List Bool) (f : Row α → UserOutput β)
    (rows : List (Row α)) : ScalarState β :=
  rows.foldl (processScalarRow argsOpt f) ⟨[], []⟩

/-! ## Generated table-function streaming (gen.rs lines 261-329, 465-474)

The generated routine iterates input rows; each row's call either produces
no iterator (`skip`: the argument gate failed or an `Option` return was
`None`), records a row-level error (`errRow`: a `Result` return was `Err`,
which appends one `(row, null, error)` entry to the builders *without* a
flush check, gen.rs lines 201-222), or produces a list of items.  Each item
appends one `(row, value, error)` entry and then flushes the builders into
a batch when the accumulated length equals `BATCH_SIZE = 1024`
(gen.rs lines 313-325).  After the loop a non-empty remainder is flushed as
a final batch (gen.rs lines 326-328). -/

deriving instance DecidableEq for Except

/-- One item yielded by the user function's iterator, per reflected
`ReturnTypeKind` of the items. -/
inductive ItemOutcome (β : Type) where
  | plain (v : β)
  | opt (v : Option β)
  | fallible (v : Except String β)
  | fallibleOpt (v : Except String (Option β))
deriving DecidableEq

/-- Outcome of the per-row call of a generated table function. -/
inductive RowCall (β : Type) where
  | skip
  | errRow (e : String)
  | items (l : List (ItemOutcome β))
deriving DecidableEq

/-- One entry of a table-function output batch:
`(row index, value cell, error cell)`. -/
abbrev TEntry (β : Type) := Nat × Option β × Option String

/-- Builders of the generated table-function routine: the pending entries
(index, value and error builders advance in lockstep) and the batches
already yielded. -/
structure TableState (β : Type) where
  cur : List (TEntry β)
  batches : List (List (TEntry β))
deriving DecidableEq

/-- `const BATCH_SIZE: usize = 1024` (gen.rs line 470). -/
def BATCH_SIZE : Nat := 1024

/-- Value cell appended for one item (gen.rs lines 271-286 with
`gen_append`). -/
def itemValue : ItemOutcome β → Option β
  | .plain v => some v
  | .opt v => v
  | .fallible (.ok x) => some x
  | .fallible (.error _) => none
  | .fallibleOpt (.ok x) => x
  | .fallibleOpt (.error _) => none

/-- Error cell appended for one item (gen.rs lines 271-286). -/
def itemErr : ItemOutcome β → Option String
  | .fallible (.error e) => some e
  | .fallibleOpt (.error e) => some e
  | _ => none

/-- The flush generated inside the item loop (gen.rs lines 321-323):
yield a batch exactly when the pending length equals `BATCH_SIZE`. -/
def flushIfFull (st : TableState β) : TableState β :=
  if st.cur.length = BATCH_SIZE then ⟨[], st.batches ++ [st.cur]⟩ else st

/-- One iteration of the generated item loop (gen.rs lines 317-324):
append the `(row, value, error)` entry, then flush if full. -/
def processItem (i : Nat) (st : TableState β) (it : ItemOutcome β) : TableState β :=
  flushIfFull { st with cur := st.cur ++ [(i, itemValue it, itemErr it)] }

/-- One iteration of the generated row loop (gen.rs lines 313-325): a
skipped row appends nothing; a row-level error appends one entry with no
flush check (gen.rs lines 201-222); items go through the item loop. -/
def processTableRow (st : TableState β) (i : Nat) (rc : RowCall β) : TableState β :=
  match rc with
  | .skip => st
  | .errRow e => { st with cur := st.cur ++ [(i, none, some e)] }
  | .items l => l.foldl (processItem i) st

/-- The row loop's step over an enumerated row. -/
def tableStep (st : TableState β) (p : Nat × RowCall β) : TableState β :=
  processTableRow st p.1 p.2

/-- The full generated table-function routine over the input rows' call
outcomes: run the row loop, then flush a non-empty remainder
(gen.rs lines 326-328), returning the yielded batches in order. -/
def tableEval (rows : List (RowCall β)) : List (List (TEntry β)) :=
  let st := rows.enum.foldl tableStep ⟨[], []⟩
  if st.cur.length > 0 then st.batches ++ [st.cur] else st.batches

/-- The argument gate of a table-function row (gen.rs lines 254-259, 314):
when some non-null-accepting argument is null the pattern yields `None` and
the generated `let Some(iter) = … else continue` skips the row without
calling the user function. -/
def tableRowCall (argsOpt : List Bool) (f : Row α → RowCall β) (row : Row α) : RowCall β :=
  if gatePasses argsOpt row then f row else .skip

/-! ## ColumnBuilderPlanner: struct builders and null appends
(`gen_append_value` / `gen_append_null`, gen.rs lines 575-634)

A builder is either a primitive builder (a flat list of entries; `false`
records a null append) or a composite struct builder (a validity buffer
plus one child builder per field, recursively).  `appendNullB` is the code
emitted by `gen_append_null`: for a struct it appends null to every field
builder and then appends `false` to the composite validity buffer. -/

mutual
inductive BState where
  | prim (entries : List Bool)
  | comp (validity : List Bool) (fields : BList)
inductive BList where
  | nil
  | cons (head : BState) (tail : BList)
end

mutual
/-- `gen_append_null` (gen.rs lines 617-634). -/
def appendNullB : BState → BState
  | .prim l => .prim (l ++ [false])
  | .comp v fs => .comp (v ++ [false]) (appendNullL fs)
/-- `gen_append_null` applied to every field builder. -/
def appendNullL : BList → BList
  | .nil => .nil
  | .cons b bs => .cons (appendNullB b) (appendNullL bs)
end

/-- Number of entries a builder holds (for a struct, the length of the
composite validity buffer). -/
def countB : BState → Nat
  | .prim l => l.length
  | .comp v _ => v.length

mutual
/-- Column-count synchronization: every field builder holds exactly as many
entries as the composite validity buffer, recursively. -/
def syncB : BState → Bool
  | .prim _ => true
  | .comp v fs => syncL v.length fs
def syncL : Nat → BList → Bool
  | _, .nil => true
  | n, .cons b bs => (countB b == n) && syncB b && syncL n bs
end

/-! ## SignatureExporter (gen.rs lines 94-148, 679-692)

`base64_encode` (gen.rs lines 680-692) is the base64 encoding, without
padding, over the custom alphabet that replaces `+` and `/` by the
linker-legal `$` and `_`.  The canonical signature string fed to it is
produced by `normalize_signature`, which is defined outside the sources
under verification. -/

/-- The custom base64 alphabet of gen.rs line 689. -/
def b64Alphabet : List Char :=
  "ABCDEFGHIJKLMNOPQRSTUVWXYZabcdefghijklmnopqrstuvwxyz0123456789$_".toList

/-- Pack a byte sequence into big-endian 6-bit groups, no padding
(the `GeneralPurpose` engine with `NO_PAD` of gen.rs line 690). -/
def encodeSextets : List Nat → List Nat
  | [] => []
  | [b] => [b / 4, b % 4 * 16]
  | [b, c] => [b / 4, b % 4 * 16 + c / 16, c % 16 * 4]
  | b :: c :: d :: rest =>
    (b / 4) :: (b % 4 * 16 + c / 16) :: (c % 16 * 4 + d / 64) :: (d % 64) ::
      encodeSextets rest

/-- Inverse of `encodeSextets` on well-formed byte input (used only to
prove injectivity of the encoding). -/
def decodeSextets : List Nat → List Nat
  | [x, y] => [x * 4 + y / 16]
  | [x, y, z] => [x * 4 + y / 16, y % 16 * 16 + z / 4]
  | x :: y :: z :: w :: rest =>
    (x * 4 + y / 16) :: (y % 16 * 16 + z / 4) :: (z % 4 * 64 + w) ::
      decodeSextets rest
  | _ => []

/-- `base64_encode` (gen.rs lines 680-692) over a byte sequence. -/
def base64Encode (bytes : List Nat) : List Char :=
  (encodeSextets bytes).map fun i => b64Alphabet.getD i 'A'

/-- The bytes of a string (faithful for the ASCII strings that appear in
canonical signatures; every theorem below carries the byte bound as a
hypothesis). -/
def strBytes (s : String) : List Nat :=
  s.toList.map Char.toNat

/-- Modelled from the spec: `FunctionAttr::normalize_signature` is defined
outside the sources under verification; the spec describes the canonical
signature string as a deterministic function of name + argument types +
return type, e.g. `add(int,int)->int`. -/
def normalizeSignature (d : FunctionAttr) : String :=
  d.name ++ "(" ++ String.intercalate "," d.args ++ ")->" ++ d.ret

/-- The exported symbol name (gen.rs line 112):
`"arrowudf_" + base64_encode(normalize_signature)`. -/
def symbolName (d : FunctionAttr) : String :=
  "arrowudf_" ++ String.mk (base64Encode (strBytes (normalizeSignature d)))

/-! ## Generated scalar evaluation: whole routine, all paths
(gen.rs lines 330-434, 465-485)

`scalarEval` covers the four code paths the generator can emit for a scalar
function: the SIMD fast paths for 0, 1 or 2 primitive arguments
(gen.rs lines 343-366), the user-supplied whole-batch path
(gen.rs lines 330-342), and the generic per-row path.  The routine finishes
with `RecordBatch::try_new_with_options` carrying
`row_count = input.num_rows()` (gen.rs lines 431-432); `mkBatchChecked`
models its validation (every column must have exactly `row_count` entries)
and the `.unwrap()` (a failed validation panics: the call is then not a
successful call, modelled as `none`). -/

/-- An input record batch: a row count and the downcast argument columns. -/
structure InputBatch (α : Type) where
  numRows : Nat
  cols : List (Row α)
deriving DecidableEq

/-- An output record batch: the row count recorded in the options, the
value column, and the error column when the signature indicates failure is
possible. -/
structure OutputBatch (β : Type) where
  numRows : Nat
  value : List (Option β)
  err : Option (List (Option String))
deriving DecidableEq

/-- Length validation of the optional error column. -/
def errLenOk : Option (List (Option String)) → Nat → Bool
  | none, _ => true
  | some l, n => l.length == n

/-- `RecordBatch::try_new_with_options(..., row_count = n).unwrap()`:
succeeds iff every column holds exactly `n` entries. -/
def mkBatchChecked (n : Nat) (value : List (Option β))
    (err : Option (List (Option String))) : Option (OutputBatch β) :=
  if value.length == n && errLenOk err n then some ⟨n, value, err⟩ else none

/-- Length of the shortest column (the multizip of the argument arrays
stops at the shortest iterator). -/
def minLen : List (Row α) → Nat
  | [] => 0
  | [c] => c.length
  | c :: cs => min c.length (minLen cs)

/-- The row iterator of the generic path (gen.rs lines 369-372): with no
arguments, `num_rows` unit rows; otherwise the multizip of the argument
columns. -/
def zipRows (numRows : Nat) (cols : List (Row α)) : List (Row α) :=
  match cols with
  | [] => List.replicate numRows []
  | cols => (List.range (minLen cols)).map fun i => cols.map fun c => c.getD i none

/-- `arrow_arith::arity::unary`, value-level view: elementwise map
preserving the null mask.  This view is adequate for the *cells* of the
output column; the slot-level view below (`PrimArray`, `arityUnary`)
additionally records that the operation runs on invalid slots too. -/
def arithUnary (f : α → β) (a : Row α) : List (Option β) :=
  a.map (Option.map f)

/-- An arrow primitive array at the physical slot level: a dense values
buffer plus a validity mask of the same length.  A slot whose validity bit
is `false` is a null cell but still holds a value in the buffer. -/
structure PrimArray (α : Type) where
  values : List α
  validity : List Bool
deriving DecidableEq

/-- `arrow_arith::arity::unary` at the slot level, the body of the
one-argument SIMD fast path (gen.rs line 358): the operation is applied to
*every* slot of the values buffer — slots whose validity bit is `false`
included — and the validity mask is copied unchanged to the output. -/
def arityUnary (op : α → β) (a : PrimArray α) : PrimArray β :=
  ⟨a.values.map op, a.validity⟩

/-- `arrow_arith::arity::binary`: fails on a length mismatch, otherwise an
elementwise map with the union of the null masks. -/
def arithBinary (f : α → α → β) (a b : Row α) : Except String (List (Option β)) :=
  if a.length = b.length then
    .ok ((a.zip b).map fun p =>
      match p.1, p.2 with
      | some x, some y => some (f x y)
      | _, _ => none)
  else .error "length mismatch"

/-- Which of the four generated code paths the scalar routine uses, with
the user-supplied function of that path. -/
inductive ScalarPath (α β : Type) where
  | simd0 (f : Unit → β)
  | simd1 (f : α → β)
  | simd2 (f : α → α → β)
  | batchFn (f : List (Row α) → List (Option β))
  | generic (argsOpt : List Bool) (f : Row α → UserOutput β) (hasError : Bool)

/-- The full generated scalar evaluation routine (gen.rs lines 330-434,
477-484): produce the value column (and error column on the generic path
with a fallible signature), then build the output batch with
`row_count = input.num_rows()`.  `none` models an aborted call (a downcast
or arity failure, a batch-level error, or a panicking `.unwrap()`). -/
def scalarEval (input : InputBatch α) (path : ScalarPath α β) : Option (OutputBatch β) :=
  match path with
  | .simd0 f =>
    mkBatchChecked input.numRows
      ((List.replicate input.numRows ()).map fun u => some (f u)) none
  | .simd1 f =>
    match input.cols[0]? with
    | some a0 => mkBatchChecked input.numRows (arithUnary f a0) none
    | none => none
  | .simd2 f =>
    match input.cols[0]?, input.cols[1]? with
    | some a0, some a1 =>
      match arithBinary f a0 a1 with
      | .ok c => mkBatchChecked input.numRows c none
      | .error _ => none
    | _, _ => none
  | .batchFn f => mkBatchChecked input.numRows (f input.cols) none
  | .generic argsOpt f hasError =>
    let st := scalarEvalGeneric argsOpt f (zipRows input.numRows input.cols)
    mkBatchChecked input.numRows st.builder
      (if hasError then some st.errBuilder else none)

/-! ## The embedded-scripting runtime (`Runtime::call`,
arrow-udf-js/src/lib.rs lines 114-147)

A JS value is `Option V` (`none` is the JS `null`; `jsarrow::get_jsvalue`,
defined outside the sources under verification, marshals a null arrow cell
to a JS null).  `runtimeCallRow` is one iteration of the row loop: the
current row's cells are pushed onto the `row` buffer; under
`ReturnNullOnNullInput`, if any buffered value is null a null result is
recorded and the loop continues — without draining the `row` buffer, which
is drained only by the invocation branch (lib.rs lines 121-140). -/

/-- The mutable state of the `Runtime::call` loop: the `row` argument
buffer and the accumulated per-row results. -/
structure JsState (V : Type) where
  row : List (Option V)
  results : List (Option V)
deriving DecidableEq

/-- One iteration of the `Runtime::call` row loop (lib.rs lines 121-140). -/
def runtimeCallRow (mode : CallMode) (f : List (Option V) → Option V)
    (st : JsState V) (vals : List (Option V)) : JsState V :=
  let rowBuf := st.row ++ vals
  if mode = CallMode.returnNullOnNullInput ∧ rowBuf.any fun v => v.isNone then
    { row := rowBuf, results := st.results ++ [none] }
  else
    { row := [], results := st.results ++ [f rowBuf] }

/-- `Runtime::call` over an input batch given as the per-row argument
cells: the per-row results that are built into the single output column. -/
def runtimeCall (mode : CallMode) (f : List (Option V) → Option V)
    (rows : List (List (Option V))) : List (Option V) :=
  (rows.foldl (runtimeCallRow mode f) ⟨[], []⟩).results

/-! ## Concrete sample data used by the witnesses below -/

/-- A sample candidate-expansion function: one wildcard `*int` with three
candidates, everything else concrete. -/
def etwSample : String → List String :=
  fun t => if t = "*int" then ["smallint", "int", "bigint"] else [t]

/-- A zero-argument descriptor with a wildcard return. -/
def dZeroArg : FunctionAttr :=
  ⟨"gen_series", [], "*int", false, none, none, none⟩

/-- A wildcard-free descriptor. -/
def dConcrete : FunctionAttr :=
  ⟨"add", ["int", "int"], "int", false, none, none, none⟩

/-- A descriptor returning `any` with an `any` argument in second
position. -/
def dAnyRet : FunctionAttr :=
  ⟨"coalesce", ["int", "any"], "any", false, none, none, none⟩

/-- A descriptor differing from `dConcrete` only in its return type. -/
def dConcreteText : FunctionAttr :=
  ⟨"add", ["int", "int"], "varchar", false, none, none, none⟩

/-- A synchronized nested struct builder: one entry in the composite
validity buffer, one entry in each field builder (the second field is
itself a struct). -/
def bSample : BState :=
  .comp [true]
    (.cons (.prim [true])
      (.cons (.comp [true] (.cons (.prim [false]) .nil)) .nil))

/-- The failing table-function input for the batch-size bound: 1023 rows
each yielding one item, then a row whose call fails, then one more row
yielding one item. -/
def c1Rows : List (RowCall Unit) :=
  List.replicate 1023 (RowCall.items [ItemOutcome.plain ()]) ++
    [RowCall.errRow "division by zero", RowCall.items [ItemOutcome.plain ()]]

/-- A concrete two-row input batch with one int column. -/
def inputSample : InputBatch Nat :=
  ⟨2, [[some 1, some 2]]⟩

theorem listProd_length {α : Type} (ls : List (List α)) :
    (listProd ls).length = (ls.map List.length).prod := by
  induction ls with
  | nil => rfl
  | cons l ls ih =>
    simp only [listProd, List.length_flatMap, List.map_map, Function.comp_def,
      List.length_map, ih, List.map_const', List.sum_replicate, smul_eq_mul,
      List.map_cons, List.prod_cons]

theorem mcpPatched_length (etw : String → List String) (args : List String) :
    (multiCartesianProduct (args.map etw) ++ if args.isEmpty then [[]] else []).length
      = (args.map fun a => (etw a).length).prod := by
  cases args with
  | nil => rfl
  | cons a as =>
    have h : multiCartesianProduct (etw a :: List.map etw as)
        = listProd (etw a :: List.map etw as) := rfl
    simp [h, listProd_length, List.map_map, Function.comp_def]

theorem listProd_singletons {α : Type} (l : List α) :
    listProd (l.map fun a => [a]) = [l] := by
  induction l with
  | nil => rfl
  | cons a as ih => simp [listProd, ih]

theorem mcpPatched_singletons {α : Type} (l : List α) :
    (multiCartesianProduct (l.map fun a => [a]) ++ if l.isEmpty then [[]] else []) = [l] := by
  cases l with
  | nil => rfl
  | cons a as =>
    have h : multiCartesianProduct ((a :: as).map fun a => [a])
        = listProd ((a :: as).map fun a => [a]) := rfl
    rw [h, listProd_singletons]
    simp

/-- C4: for every candidate-expansion function `etw`, `expand` yields
exactly `m * Π ki` monomorphic descriptors, where `ki` is the number of
candidates for the `i`-th argument position and `m` the number of
candidates for the return position; in particular a descriptor with zero
arguments expands to exactly `m` descriptors, never to the empty list. -/
theorem expand_wildcard_count (etw : String → List String) (d : FunctionAttr) :
    (expand etw d).length =
      (etw d.ret).length * (d.args.map fun a => (etw a).length).prod ∧
    (d.args = [] → (expand etw d).length = (etw d.ret).length) := by
  have hlen : (expand etw d).length =
      (multiCartesianProduct (d.args.map etw) ++
        if d.args.isEmpty then [[]] else []).length * (etw d.ret).length := by
    simp only [expand, List.length_flatMap, List.map_map, Function.comp_def,
      List.length_map, List.map_const', List.sum_replicate, smul_eq_mul]
  constructor
  · rw [hlen, mcpPatched_length, Nat.mul_comm]
  · intro h
    rw [hlen, h]
    simp [multiCartesianProduct]

/-- Witness for C4: the zero-argument descriptor `dZeroArg` with a
three-candidate return wildcard expands to exactly three descriptors. -/
theorem expand_wildcard_count_witness :
    (expand etwSample dZeroArg).length = 3 := by
  rw [(expand_wildcard_count etwSample dZeroArg).2 rfl]
  rfl

/-- C9: `expand` is the identity (up to the singleton list) on every
descriptor all of whose argument types and return type are wildcard-free,
i.e. are each their own sole expansion candidate. -/
theorem expand_concrete_idempotent (etw : String → List String) (d : FunctionAttr)
    (hargs : ∀ a ∈ d.args, etw a = [a]) (hret : etw d.ret = [d.ret]) :
    expand etw d = [d] := by
  have hmap : d.args.map etw = d.args.map fun a => [a] := List.map_congr_left hargs
  simp only [expand, hmap, mcpPatched_singletons, hret]
  rfl

/-- Witness for C9: the wildcard-free descriptor `dConcrete` expands to
exactly itself. -/
theorem expand_concrete_idempotent_witness :
    expand etwSample dConcrete = [dConcrete] :=
  expand_concrete_idempotent etwSample dConcrete (by decide) (by decide)

/-- C5: for a descriptor with no explicit inference expression whose return
type is `any`, the synthesized inference function returns exactly the
caller-supplied type of the first `any` argument — its result depends on
the type at that position only, hence is independent of every other
argument's type — and, when no `any` argument exists, the element type of
the first `anyarray` argument. -/
theorem type_infer_any_first (d : FunctionAttr) (hti : d.type_infer = none)
    (hret : d.ret = "any") :
    (∀ i, d.args.findIdx? (· == "any") = some i →
      generateTypeInferFn d = .ok (.argType i) ∧
      (∀ (ts : List DataTypeM) (t : DataTypeM), ts[i]? = some t →
        applyInfer (.argType i) ts = .ok t) ∧
      (∀ ts ts' : List DataTypeM, ts[i]? = ts'[i]? →
        applyInfer (.argType i) ts = applyInfer (.argType i) ts')) ∧
    (d.args.findIdx? (· == "any") = none →
      ∀ j, d.args.findIdx? (· == "anyarray") = some j →
        generateTypeInferFn d = .ok (.argElemType j) ∧
        ∀ (ts : List DataTypeM) (t : DataTypeM), ts[j]? = some t →
          applyInfer (.argElemType j) ts = .ok t.asList) := by
  constructor
  · intro i hi
    refine ⟨by simp [generateTypeInferFn, hti, hret, hi], ?_, ?_⟩
    · intro ts t ht
      simp [applyInfer, ht]
    · intro ts ts' h
      simp [applyInfer, h]
  · intro hnone j hj
    refine ⟨by simp [generateTypeInferFn, hti, hret, hnone, hj], ?_⟩
    intro ts t ht
    simp [applyInfer, ht]

/-- Witness for C5: `dAnyRet` has its first `any` argument at position 1;
the synthesized closure is `argType 1` and applying it picks out the
caller-supplied second argument type. -/
theorem type_infer_any_first_witness :
    generateTypeInferFn dAnyRet = .ok (.argType 1) ∧
    applyInfer (.argType 1) [DataTypeM.named "boolean", DataTypeM.named "varchar"]
      = .ok (DataTypeM.named "varchar") := by
  have h := (type_infer_any_first dAnyRet rfl rfl).1 1 (by rfl)
  exact ⟨h.1, h.2.1 _ _ rfl⟩

/-- C2 (counterexample): the claim fails as stated for *every* generated
scalar routine — on the one-argument SIMD fast path (gen.rs lines 357-360,
whose argument is necessarily non-`Option`, i.e. does not accept null
directly) the user function is invoked for a row whose argument is null:
on the concrete one-row input with values buffer `[7]` and validity
`[false]` (the single row's argument is null), two user functions
differing at `7` produce different routine outputs, so the function is
applied to that row's slot; only the row's *result* is still null, the
validity mask being copied unchanged. -/
theorem simd_fast_path_invokes_on_null :
    arityUnary (fun n => n + 1) (⟨[7], [false]⟩ : PrimArray Nat)
      ≠ arityUnary (fun n => n * 3) (⟨[7], [false]⟩ : PrimArray Nat) ∧
    (arityUnary (fun n => n + 1) (⟨[7], [false]⟩ : PrimArray Nat)).validity
      = [false] := by
  constructor
  · decide
  · rfl

/-- C2 (amended): in the generated paths that perform the
argument-unwrapping match — the generic per-row scalar path and the table
path — for every input row, if some argument whose reflected signature
entry does not accept null directly (`args_option` entry `false`) is null
in that row, the user function is not invoked for that row (the outcome is
the same for every user function) and the row's result is null: the scalar
path appends a null value, the table path appends no entry.  The generator
never consults any `CallMode` (the `_mode` argument is unused by every
definition involved), so the short-circuit holds regardless of `CallMode`.
The SIMD fast path is excluded: there the user function is applied to null
slots as well (only the result is null, via the copied validity mask), and
the custom whole-batch path applies no per-row gate at all. -/
theorem null_unwrap_short_circuit {α β : Type} (_mode : CallMode)
    (argsOpt : List Bool) (row : Row α)
    (hmem : (false, (none : Option α)) ∈ argsOpt.zip row) :
    (∀ (f g : Row α → UserOutput β) (st : ScalarState β),
        processScalarRow argsOpt f st row = { st with builder := st.builder ++ [none] } ∧
        processScalarRow argsOpt f st row = processScalarRow argsOpt g st row) ∧
    (∀ (f g : Row α → RowCall β) (st : TableState β) (i : Nat),
        processTableRow st i (tableRowCall argsOpt f row) = st ∧
        tableRowCall argsOpt f row = tableRowCall argsOpt g row) := by
  have hg : gatePasses argsOpt row = false := by
    cases h : gatePasses argsOpt row with
    | false => rfl
    | true => exact absurd (List.all_eq_true.mp h _ hmem) (by simp)
  constructor
  · intro f g st
    constructor <;> simp [processScalarRow, hg]
  · intro f g st i
    constructor <;> simp [tableRowCall, hg, processTableRow]

/-- Witness for C2: a single non-null-accepting argument that is null makes
the scalar row append a null and leaves the table builders untouched. -/
theorem null_unwrap_short_circuit_witness :
    processScalarRow [false] (fun _ => UserOutput.plain 7) ⟨[], []⟩ [(none : Option Nat)]
      = ⟨[none], []⟩ ∧
    processTableRow (⟨[], []⟩ : TableState Nat) 0
      (tableRowCall [false] (fun _ => RowCall.items [ItemOutcome.plain 7])
        [(none : Option Nat)]) = ⟨[], []⟩ := by
  have h := null_unwrap_short_circuit (α := Nat) (β := Nat)
    CallMode.calledOnNullInput [false] [none] (by decide)
  exact ⟨(h.1 _ (fun _ => UserOutput.plain 8) ⟨[], []⟩).1,
    (h.2 _ (fun _ => RowCall.skip) ⟨[], []⟩ 0).1⟩

/-- C3: in the generic per-row scalar path with a `Fallible` or
`FallibleOptional` return shape, a row where the user function fails
appends a null value together with a non-null error cell holding the
failure's display string, and a row where it succeeds appends its value
(resp. its inner optional) together with a null error cell. -/
theorem fallible_append_projection {α β : Type} (argsOpt : List Bool)
    (f : Row α → UserOutput β) (st : ScalarState β) (row : Row α)
    (hgate : gatePasses argsOpt row = true) :
    (∀ e, f row = .fallible (.error e) →
      processScalarRow argsOpt f st row
        = ⟨st.builder ++ [none], st.errBuilder ++ [some e]⟩) ∧
    (∀ x, f row = .fallible (.ok x) →
      processScalarRow argsOpt f st row
        = ⟨st.builder ++ [some x], st.errBuilder ++ [none]⟩) ∧
    (∀ e, f row = .fallibleOpt (.error e) →
      processScalarRow argsOpt f st row
        = ⟨st.builder ++ [none], st.errBuilder ++ [some e]⟩) ∧
    (∀ x, f row = .fallibleOpt (.ok x) →
      processScalarRow argsOpt f st row
        = ⟨st.builder ++ [x], st.errBuilder ++ [none]⟩) := by
  refine ⟨?_, ?_, ?_, ?_⟩ <;> intro v hv <;>
    simp [processScalarRow, hgate, hv, applyOutput]

/-- Witness for C3: a failing fallible call on a gate-passing row appends
`(null value, error text)` after the already-accumulated entries. -/
theorem fallible_append_projection_witness :
    processScalarRow [false] (fun _ => UserOutput.fallible (Except.error "boom"))
      (⟨[some 3], [none]⟩ : ScalarState Nat) [some (1 : Nat)]
      = ⟨[some 3, none], [none, some "boom"]⟩ := by
  have h := (fallible_append_projection [false]
    (fun _ => UserOutput.fallible (Except.error "boom"))
    (⟨[some 3], [none]⟩ : ScalarState Nat) [some 1] (by decide)).1 "boom" rfl
  exact h

theorem countB_appendNullB (b : BState) : countB (appendNullB b) = countB b + 1 := by
  cases b with
  | prim l => simp [appendNullB, countB]
  | comp v fs => simp [appendNullB, countB]

mutual
theorem syncB_appendNullB : ∀ b : BState, syncB b = true → syncB (appendNullB b) = true
  | .prim _, _ => by simp [appendNullB, syncB]
  | .comp v fs, h => by
    have h' : syncL v.length fs = true := by simpa [syncB] using h
    have hrec := syncL_appendNullL v.length fs h'
    simpa [appendNullB, syncB, List.length_append] using hrec
theorem syncL_appendNullL : ∀ (n : Nat) (fs : BList),
    syncL n fs = true → syncL (n + 1) (appendNullL fs) = true
  | _, .nil, _ => by simp [appendNullL, syncL]
  | n, .cons b bs, h => by
    simp only [syncL, Bool.and_eq_true, beq_iff_eq] at h
    obtain ⟨⟨hc, hs⟩, ht⟩ := h
    simp only [appendNullL, syncL, Bool.and_eq_true, beq_iff_eq]
    exact ⟨⟨by rw [countB_appendNullB, hc], syncB_appendNullB b hs⟩,
      syncL_appendNullL n bs ht⟩
end

/-- C7: appending a logically-null struct row appends a null entry to every
field builder — `appendNullL`, which recurses into nested struct fields —
and then marks the composite entry absent (`validity ++ [false]`); a
column-count-synchronized builder stays synchronized with every entry count
advanced by one. -/
theorem struct_append_null_sync (v : List Bool) (fs : BList)
    (h : syncB (BState.comp v fs) = true) :
    appendNullB (BState.comp v fs) = BState.comp (v ++ [false]) (appendNullL fs) ∧
    countB (appendNullB (BState.comp v fs)) = countB (BState.comp v fs) + 1 ∧
    syncB (appendNullB (BState.comp v fs)) = true :=
  ⟨rfl, countB_appendNullB _, syncB_appendNullB _ h⟩

/-- Witness for C7: a nested two-field struct builder (second field itself
a struct) stays synchronized after a null append, all counts advancing from
one to two. -/
theorem struct_append_null_sync_witness :
    countB (appendNullB bSample) = 2 ∧ syncB (appendNullB bSample) = true := by
  have h := struct_append_null_sync [true]
    (.cons (.prim [true]) (.cons (.comp [true] (.cons (.prim [false]) .nil)) .nil))
    (by simp [syncB, syncL, countB])
  exact ⟨h.2.1, h.2.2⟩

/-! ## C1: the 1024-row batch bound is violated by the row-level error path

In the generated table-function routine the flush check
`if index_builder.len() == BATCH_SIZE` runs only after an *item* append
(gen.rs lines 321-323); the row-level error path (gen.rs lines 201-222)
appends its `(row, null, error)` entry with no check.  If that unchecked
append makes the pending length exactly 1024, the equality check can never
fire again, and the final flush emits a batch of more than 1024 entries. -/

theorem flushIfFull_of_ne {β : Type} (st : TableState β)
    (h : st.cur.length ≠ BATCH_SIZE) : flushIfFull st = st := by
  simp [flushIfFull, h]

theorem tableStep_errRow {β : Type} (st : TableState β) (i : Nat) (e : String) :
    tableStep st (i, RowCall.errRow e)
      = { st with cur := st.cur ++ [(i, none, some e)] } := rfl

theorem tableStep_items_noflush {β : Type} (st : TableState β) (i : Nat) (v : β)
    (hne : (st.cur ++ [((i, some v, none) : TEntry β)]).length ≠ BATCH_SIZE) :
    tableStep st (i, RowCall.items [ItemOutcome.plain v])
      = { st with cur := st.cur ++ [(i, some v, none)] } := by
  have hdef : tableStep st (i, RowCall.items [ItemOutcome.plain v])
      = flushIfFull { st with cur := st.cur ++ [(i, some v, none)] } := rfl
  rw [hdef]
  exact flushIfFull_of_ne _ hne

theorem tableFold_single_items {β : Type} :
    ∀ (ps : List (Nat × RowCall β)) (st : TableState β),
      (∀ p ∈ ps, ∃ i v, p = (i, RowCall.items [ItemOutcome.plain v])) →
      st.cur.length + ps.length ≤ 1023 →
      (ps.foldl tableStep st).batches = st.batches ∧
      (ps.foldl tableStep st).cur.length = st.cur.length + ps.length := by
  intro ps
  induction ps with
  | nil => exact fun st _ _ => ⟨rfl, by simp⟩
  | cons p ps ih =>
    intro st hall hlen
    obtain ⟨i, v, rfl⟩ := hall _ (List.mem_cons_self _ _)
    have hne : (st.cur ++ [((i, some v, none) : TEntry β)]).length ≠ BATCH_SIZE := by
      simp only [List.length_append, List.length_cons, List.length_nil, BATCH_SIZE]
      simp only [List.length_cons] at hlen
      omega
    have hrec := ih { st with cur := st.cur ++ [(i, some v, none)] }
      (fun q hq => hall q (List.mem_cons_of_mem _ hq))
      (by simp only [List.length_append, List.length_cons, List.length_nil]
          simp only [List.length_cons] at hlen
          omega)
    rw [List.foldl_cons, tableStep_items_noflush st i v hne]
    refine ⟨hrec.1, ?_⟩
    rw [hrec.2]
    simp only [List.length_append, List.length_cons, List.length_nil]
    omega

/-- C1 (exhibit of the failing input): with 1023 single-item rows, then a
row whose call fails (recording a row-level error entry exactly at the
1024 boundary), then one more single-item row, the generated routine emits
exactly one batch, holding 1025 entries — more than `BATCH_SIZE = 1024`. -/
theorem tableEval_batch_size_exceeded :
    (tableEval c1Rows).map List.length = [1025] ∧
    ∃ b ∈ tableEval c1Rows, BATCH_SIZE < b.length := by
  have hmem : ∀ p ∈ (List.replicate 1023 (RowCall.items [ItemOutcome.plain ()])).enum,
      ∃ i v, p = (i, RowCall.items [ItemOutcome.plain v]) := by
    intro p hp
    obtain ⟨a, b⟩ := p
    have h2 := List.mem_enum_iff_getElem?.mp hp
    rw [List.getElem?_replicate] at h2
    have h3 : (if a < 1023 then some (RowCall.items [ItemOutcome.plain ()]) else none)
        = some b := h2
    by_cases hlt : a < 1023
    · rw [if_pos hlt] at h3
      exact ⟨a, (), by rw [Option.some_inj.mp h3]⟩
    · rw [if_neg hlt] at h3
      exact absurd h3 (by simp)
  have henlen : ((List.replicate 1023
      (RowCall.items (β := Unit) [ItemOutcome.plain ()])).enum).length = 1023 := by
    rw [List.enum_length, List.length_replicate]
  have h1 := tableFold_single_items
    ((List.replicate 1023 (RowCall.items [ItemOutcome.plain ()])).enum)
    ⟨[], []⟩ hmem (by rw [henlen]; simp)
  obtain ⟨st1, hst1⟩ : ∃ s, ((List.replicate 1023
      (RowCall.items [ItemOutcome.plain ()])).enum).foldl tableStep
        (⟨[], []⟩ : TableState Unit) = s := ⟨_, rfl⟩
  rw [hst1] at h1
  have hb1 : st1.batches = [] := h1.1
  have hc1 : st1.cur.length = 1023 := by
    have h4 := h1.2
    rw [henlen] at h4
    simpa using h4
  have henum : c1Rows.enum
      = (List.replicate 1023 (RowCall.items [ItemOutcome.plain ()])).enum
        ++ [(1023, RowCall.errRow "division by zero"),
            (1024, RowCall.items [ItemOutcome.plain ()])] := by
    show (List.replicate 1023 (RowCall.items [ItemOutcome.plain ()]) ++
      [RowCall.errRow "division by zero", RowCall.items [ItemOutcome.plain ()]]).enum = _
    rw [List.enum_append, List.length_replicate]
    rfl
  have hne3 : ((({ st1 with
        cur := st1.cur ++ [(1023, none, some "division by zero")] } : TableState Unit)).cur
      ++ [((1024, some (), none) : TEntry Unit)]).length ≠ BATCH_SIZE := by
    simp only [List.length_append, List.length_cons, List.length_nil, hc1, BATCH_SIZE]
    omega
  have hfold : c1Rows.enum.foldl tableStep (⟨[], []⟩ : TableState Unit)
      = { st1 with cur := (st1.cur ++ [(1023, none, some "division by zero")])
          ++ [(1024, some (), none)] } := by
    rw [henum, List.foldl_append, hst1, List.foldl_cons, tableStep_errRow,
      List.foldl_cons, tableStep_items_noflush _ 1024 () hne3, List.foldl_nil]
  have hlenf : (c1Rows.enum.foldl tableStep (⟨[], []⟩ : TableState Unit)).cur.length
      = 1025 := by
    rw [hfold]
    simp only [List.length_append, List.length_cons, List.length_nil, hc1]
  have hbf : (c1Rows.enum.foldl tableStep (⟨[], []⟩ : TableState Unit)).batches = [] := by
    rw [hfold]
    simpa using hb1
  have heval : tableEval c1Rows
      = [(c1Rows.enum.foldl tableStep (⟨[], []⟩ : TableState Unit)).cur] := by
    simp only [tableEval]
    rw [if_pos (by rw [hlenf]; omega), hbf]
    rfl
  refine ⟨?_, ?_⟩
  · rw [heval, List.map_cons, List.map_nil, hlenf]
  · exact ⟨_, by rw [heval]; exact List.mem_singleton.mpr rfl, by rw [hlenf]; decide⟩

/-- C8 (exhibit of the failing input): under `ReturnNullOnNullInput`, after
a row containing a null, the `row` buffer is never drained (the
short-circuit branch `continue`s without `row.drain(..)`,
lib.rs lines 127-132), so the stale null makes every later row — including
rows with no null argument — take the null branch: for every registered
function `f`, the input `[[null], [1]]` yields `[null, null]` and `f` is
never invoked for the second row, whereas a non-null row on its own does
invoke `f`. -/
theorem runtimeCall_stale_row_bug :
    (∀ f : List (Option Nat) → Option Nat,
      runtimeCall CallMode.returnNullOnNullInput f [[none], [some 1]]
        = [none, none]) ∧
    runtimeCall CallMode.returnNullOnNullInput (fun _ => some 0) [[some 1]]
      = [some 0] := by
  constructor
  · intro f
    rfl
  · rfl

theorem mkBatchChecked_some {β : Type} {n : Nat} {v : List (Option β)}
    {e : Option (List (Option String))} {b : OutputBatch β}
    (h : mkBatchChecked n v e = some b) :
    b.numRows = n ∧ b.value.length = n := by
  by_cases hc : (v.length == n && errLenOk e n) = true
  · rw [mkBatchChecked, if_pos hc] at h
    obtain ⟨hl, _⟩ := Bool.and_eq_true_iff.mp hc
    cases h
    refine ⟨rfl, ?_⟩
    simpa using hl
  · rw [mkBatchChecked, if_neg hc] at h
    exact absurd h (by simp)

/-- C10: every successful call of a generated scalar evaluation routine —
on any of the four generated paths, including the zero-argument fast
path — returns an output batch whose recorded row count and value-column
length both equal the input batch's row count (the generated routine
builds the output with `row_count = input.num_rows()` and
`RecordBatch::try_new_with_options` validates every column against it). -/
theorem scalarEval_row_count {α β : Type} (input : InputBatch α)
    (path : ScalarPath α β) (b : OutputBatch β)
    (h : scalarEval input path = some b) :
    b.numRows = input.numRows ∧ b.value.length = input.numRows := by
  cases path with
  | simd0 f => exact mkBatchChecked_some (by simpa [scalarEval] using h)
  | simd1 f =>
    cases hc : input.cols[0]? with
    | some a0 =>
      simp only [scalarEval, hc] at h
      exact mkBatchChecked_some h
    | none => simp [scalarEval, hc] at h
  | simd2 f =>
    cases hc0 : input.cols[0]? with
    | some a0 =>
      cases hc1 : input.cols[1]? with
      | some a1 =>
        cases hab : arithBinary f a0 a1 with
        | ok c =>
          simp only [scalarEval, hc0, hc1, hab] at h
          exact mkBatchChecked_some h
        | error msg => simp [scalarEval, hc0, hc1, hab] at h
      | none => simp [scalarEval, hc0, hc1] at h
    | none => simp [scalarEval, hc0] at h
  | batchFn f => exact mkBatchChecked_some (by simpa [scalarEval] using h)
  | generic argsOpt f hasError =>
    simp only [scalarEval] at h
    exact mkBatchChecked_some h

/-- Witness for C10: the unary fast path on a two-row batch returns a
two-row output batch. -/
theorem scalarEval_row_count_witness :
    (⟨2, [some 2, some 3], none⟩ : OutputBatch Nat).numRows = inputSample.numRows ∧
    (⟨2, [some 2, some 3], none⟩ : OutputBatch Nat).value.length = inputSample.numRows :=
  scalarEval_row_count inputSample (ScalarPath.simd1 (fun n => n + 1)) _ (by decide)

/-! ## C6: determinism and return-type injectivity of the exported symbol -/

theorem decodeSextets_encodeSextets :
    ∀ (bs : List Nat), (∀ b ∈ bs, b < 256) → decodeSextets (encodeSextets bs) = bs
  | [] => fun _ => rfl
  | [b] => fun h => by
    have hb : b < 256 := h b (by simp)
    simp only [encodeSextets, decodeSextets, List.cons.injEq, and_true]
    omega
  | [b, c] => fun h => by
    have hb : b < 256 := h b (by simp)
    have hc : c < 256 := h c (by simp)
    simp only [encodeSextets, decodeSextets, List.cons.injEq, and_true]
    omega
  | b :: c :: d :: rest => fun h => by
    have hb : b < 256 := h b (by simp)
    have hc : c < 256 := h c (by simp)
    have hd : d < 256 := h d (by simp)
    have ih := decodeSextets_encodeSextets rest (fun x hx => h x (by simp [hx]))
    simp only [encodeSextets, decodeSextets, List.cons.injEq]
    exact ⟨by omega, by omega, by omega, ih⟩

theorem encodeSextets_lt :
    ∀ (bs : List Nat), (∀ b ∈ bs, b < 256) → ∀ s ∈ encodeSextets bs, s < 64
  | [] => fun _ s hs => by simp [encodeSextets] at hs
  | [b] => fun h s hs => by
    have hb : b < 256 := h b (by simp)
    simp only [encodeSextets, List.mem_cons, List.not_mem_nil, or_false] at hs
    rcases hs with rfl | rfl <;> omega
  | [b, c] => fun h s hs => by
    have hb : b < 256 := h b (by simp)
    have hc : c < 256 := h c (by simp)
    simp only [encodeSextets, List.mem_cons, List.not_mem_nil, or_false] at hs
    rcases hs with rfl | rfl | rfl <;> omega
  | b :: c :: d :: rest => fun h s hs => by
    have hb : b < 256 := h b (by simp)
    have hc : c < 256 := h c (by simp)
    have hd : d < 256 := h d (by simp)
    have ih := encodeSextets_lt rest (fun x hx => h x (by simp [hx]))
    simp only [encodeSextets, List.mem_cons] at hs
    rcases hs with rfl | rfl | rfl | rfl | hs
    · omega
    · omega
    · omega
    · omega
    · exact ih s hs

theorem b64Alphabet_inj :
    ∀ i, i < 64 → ∀ j, j < 64 →
      b64Alphabet.getD i 'A' = b64Alphabet.getD j 'A' → i = j := by decide

theorem map_b64_inj :
    ∀ (xs ys : List Nat), (∀ x ∈ xs, x < 64) → (∀ y ∈ ys, y < 64) →
      xs.map (fun i => b64Alphabet.getD i 'A')
        = ys.map (fun i => b64Alphabet.getD i 'A') →
      xs = ys := by
  intro xs
  induction xs with
  | nil =>
    intro ys _ _ h
    cases ys with
    | nil => rfl
    | cons y ys => simp at h
  | cons x xs ih =>
    intro ys hx hy h
    cases ys with
    | nil => simp at h
    | cons y ys =>
      simp only [List.map_cons, List.cons.injEq] at h
      have hxy := b64Alphabet_inj x (hx x (by simp)) y (hy y (by simp)) h.1
      rw [hxy, ih ys (fun a ha => hx a (by simp [ha])) (fun a ha => hy a (by simp [ha])) h.2]

theorem base64Encode_inj (bs1 bs2 : List Nat) (h1 : ∀ b ∈ bs1, b < 256)
    (h2 : ∀ b ∈ bs2, b < 256) (he : base64Encode bs1 = base64Encode bs2) :
    bs1 = bs2 := by
  have hse := map_b64_inj _ _ (encodeSextets_lt bs1 h1) (encodeSextets_lt bs2 h2) he
  rw [← decodeSextets_encodeSextets bs1 h1, ← decodeSextets_encodeSextets bs2 h2, hse]

theorem char_toNat_inj (a b : Char) (h : a.toNat = b.toNat) : a = b := by
  have h2 := congrArg Char.ofNat h
  rwa [Char.ofNat_toNat, Char.ofNat_toNat] at h2

theorem strBytes_append (s t : String) :
    strBytes (s ++ t) = strBytes s ++ strBytes t := by
  simp [strBytes, String.toList, String.data_append]

theorem strBytes_inj (s t : String) (h : strBytes s = strBytes t) : s = t := by
  have hlist : s.toList = t.toList :=
    (List.map_injective_iff.mpr fun a b hab => char_toNat_inj a b hab) h
  cases s
  cases t
  simp only [String.toList] at hlist
  exact congrArg String.mk hlist

/-- C6: the exported symbol name is a pure (hence deterministic) function
of the descriptor, and two descriptors that agree on name and argument
types but differ in return type receive distinct symbol names (stated for
descriptors whose canonical signature strings are byte-valued, i.e. ASCII,
as linker symbols are). -/
theorem symbolName_deterministic_injective (d1 d2 : FunctionAttr)
    (hname : d1.name = d2.name) (hargs : d1.args = d2.args) (hret : d1.ret ≠ d2.ret)
    (hb1 : ∀ b ∈ strBytes (normalizeSignature d1), b < 256)
    (hb2 : ∀ b ∈ strBytes (normalizeSignature d2), b < 256) :
    symbolName d1 = symbolName d1 ∧ symbolName d1 ≠ symbolName d2 := by
  refine ⟨rfl, fun he => hret ?_⟩
  have hd : base64Encode (strBytes (normalizeSignature d1))
      = base64Encode (strBytes (normalizeSignature d2)) := by
    have h0 := congrArg String.data he
    simp only [symbolName] at h0
    rw [String.data_append, String.data_append] at h0
    exact List.append_cancel_left h0
  have hbytes := base64Encode_inj _ _ hb1 hb2 hd
  have key : strBytes ((d1.name ++ "(" ++ String.intercalate "," d1.args ++ ")->") : String)
        ++ strBytes d1.ret
      = strBytes ((d2.name ++ "(" ++ String.intercalate "," d2.args ++ ")->") : String)
        ++ strBytes d2.ret := by
    rw [← strBytes_append, ← strBytes_append]
    exact hbytes
  rw [hname, hargs] at key
  exact strBytes_inj _ _ (List.append_cancel_left key)

/-- Witness for C6: `dConcrete` and `dConcreteText` differ only in return
type (`int` vs `varchar`) and receive distinct exported symbols. -/
theorem symbolName_deterministic_injective_witness :
    symbolName dConcrete = symbolName dConcrete ∧
    symbolName dConcrete ≠ symbolName dConcreteText :=
  symbolName_deterministic_injective dConcrete dConcreteText rfl rfl
    (by decide) (by decide) (by decide)

end ArrowUdf
